import Mathlib

/-!
# Twig: capture-file framing of `src/main.cc`

A shallow embedding of the capture-file side of Twig (`write_pcap`, `setup`,
`loop`, `print_help`, `main`).  The host is little-endian, as the source's own
comment on `PCAP_MAGIC_LITTLE` assumes.  Struct fields are held as natural
numbers below `2 ^ w`; system calls take their outcome from an explicit
environment record.
-/

namespace Twig

/-! ## Bytes and fixed-width integers -/

/-- One octet of the capture file or of a buffer. -/
abbrev Byte := Fin 256

/-- Native (little-endian) value of a run of bytes, lowest address first. -/
def le_decode : List Byte → Nat
  | [] => 0
  | b :: bs => b.val + 256 * le_decode bs

/-- Native (little-endian) memory image of `v` in a field of `size` bytes. -/
def le_encode : Nat → Nat → List Byte
  | 0, _ => []
  | size + 1, v => ⟨v % 256, Nat.mod_lt _ (by decide)⟩ :: le_encode size (v / 256)

/-- Modelled from the spec: `reverse_assign(ptr, size)` is declared in `utils.h`,
which is not among the source files; it reverses the `size` bytes of the
field in place.  The field is given and returned as its native value. -/
def reverse_assign (size : Nat) (v : Nat) : Nat :=
  le_decode (le_encode size v).reverse

/-- Byte swap of a 32-bit value, written with shifts and masks. -/
def bswap32 (v : Nat) : Nat :=
  (v % 256) * 16777216 + (v / 256 % 256) * 65536 + (v / 65536 % 256) * 256
    + (v / 16777216 % 256)

/-- Byte swap of a 16-bit value. -/
def bswap16 (v : Nat) : Nat :=
  (v % 256) * 256 + (v / 256 % 256)

/-- Conversion of a value to `int` (32-bit two's complement). -/
def wrap32 (x : Int) : Int :=
  (x + 2147483648) % 4294967296 - 2147483648

/-- Conversion of a value to `long long` (64-bit two's complement). -/
def wrap64 (x : Int) : Int :=
  (x + 9223372036854775808) % 18446744073709551616 - 9223372036854775808

/-! ## Data model -/

/-- The structure at the start of every pcap file (24 bytes). -/
structure pcap_file_header where
  magic : Nat
  version_major : Nat
  version_minor : Nat
  thiszone : Nat
  sigfigs : Nat
  snaplen : Nat
  linktype : Nat
deriving DecidableEq

/-- The structure at the start of every packet record (16 bytes). -/
structure pcap_pkthdr where
  ts_secs : Nat
  ts_usecs : Nat
  caplen : Nat
  len : Nat
deriving DecidableEq

/-- One scatter/gather segment: the bytes of the owned buffer (empty for `NULL`)
and the declared length. -/
structure iovec where
  iov_base : List Byte
  iov_len : Nat
deriving DecidableEq

/-- The globals of `main.cc` that the capture-file code reads or writes, with
the capture file itself: `file` is its content, `read_pos` the offset of
`pcap_fd_read`; `pcap_fd_write` is opened `O_APPEND`, so writes extend `file`. -/
structure State where
  debug : Nat
  reverseEndian : Nat
  pfh : pcap_file_header
  iov : List iovec
  iov_cnt : Nat
  file : List Byte
  read_pos : Nat
deriving DecidableEq

/-- What the operating system answers during one pass: whether a call fails,
the clock, and how many bytes `writev` is able to take (`none`: it fails). -/
structure Env where
  hdr_read_fails : Bool
  lseek_fails : Bool
  body_read_fails : Bool
  malloc_fails : Bool
  gettimeofday : Option (Nat × Nat)
  writev_room : Option Nat
deriving DecidableEq

/-- A call either ends the process with an exit status or returns. -/
inductive Outcome (α : Type) where
  | exit (code : Nat) : Outcome α
  | ret (a : α) : Outcome α
deriving DecidableEq

/-- Sequencing: nothing after a call that ends the process is executed. -/
def Outcome.bind {α β : Type} (x : Outcome α) (f : α → Outcome β) : Outcome β :=
  match x with
  | .exit c => .exit c
  | .ret a => f a

/-! ## System calls -/

/-- Outcome of `read(fd, buf, count)` on a regular file: return value, the
bytes delivered, and the new offset.  A failed call delivers nothing. -/
def sys_read (fails : Bool) (file : List Byte) (pos count : Nat) :
    Int × List Byte × Nat :=
  if fails then (-1, [], pos)
  else
    let data := (file.drop pos).take count
    ((data.length : Nat), data, pos + data.length)

/-- The `iov_len` bytes a segment contributes to `writev`. -/
def seg_bytes (s : iovec) : List Byte :=
  (List.range s.iov_len).map (fun i => s.iov_base.getD i 0)

/-- Outcome of `writev(pcap_fd_write, iov, iov_cnt)`: return value and the file
afterwards.  The descriptor is append-only; a short write appends a prefix. -/
def writev (room : Option Nat) (file : List Byte) (iov : List iovec) (iov_cnt : Nat) :
    Int × List Byte :=
  match room with
  | none => (-1, file)
  | some k =>
    let written := (((iov.take iov_cnt).map seg_bytes).flatten).take k
    ((written.length : Nat), file ++ written)

/-! ## `write_pcap` (lines 64-100) -/

/-- The memory image of a record header, as `writev` copies it out. -/
def pkthdr_bytes (h : pcap_pkthdr) : List Byte :=
  le_encode 4 h.ts_secs ++ le_encode 4 h.ts_usecs ++ le_encode 4 h.caplen
    ++ le_encode 4 h.len

/-- Lines 75-76: `for (i = 1; i < iov_cnt; i++) total_len += iov[i].iov_len`,
with `total_len` a `long long`. -/
def payload_total (iov : List iovec) (iov_cnt : Nat) : Int :=
  (List.range' 1 (iov_cnt - 1)).foldl
    (fun total_len i => wrap64 (total_len + ((iov.getD i ⟨[], 0⟩).iov_len : Nat))) 0

/-- Lines 94-98: every slot below `iov_cnt` is freed and cleared. -/
def release_segments (iov : List iovec) (iov_cnt : Nat) : List iovec :=
  (List.range iov_cnt).foldl (fun acc i => acc.set i ⟨[], 0⟩) iov

/-- The locals of `write_pcap` once `writev` has returned: the record header
built at lines 78-81, `total_len` as compared at line 88, `writev`'s return
value, the segment array handed to `writev`, and the file afterwards. -/
structure WriteLocals where
  pcap_hdr : pcap_pkthdr
  total_len : Int
  ret : Int
  iov : List iovec
  file : List Byte
deriving DecidableEq

/-- Lines 65-87 of `write_pcap`; `none` when `gettimeofday` fails (line 69). -/
def write_pcap_locals (env : Env) (st : State) : Option WriteLocals :=
  match env.gettimeofday with
  | none => none
  | some (tv_sec, tv_usec) =>
    let total_len := payload_total st.iov st.iov_cnt
    let pcap_hdr : pcap_pkthdr :=
      { ts_secs := tv_sec % 4294967296
        ts_usecs := tv_usec % 4294967296
        caplen := (total_len % 4294967296).toNat
        len := (total_len % 4294967296).toNat }
    let iov := st.iov.set 0 ⟨pkthdr_bytes pcap_hdr, 16⟩
    let total_len := wrap64 (total_len + 16)
    let w := writev env.writev_room st.file iov st.iov_cnt
    some { pcap_hdr := pcap_hdr, total_len := total_len, ret := w.1, iov := iov, file := w.2 }

/-- The function `write_pcap`.  It never ends the process: both failure paths
(`gettimeofday`, line 69, and the byte-count test, line 88) report and return. -/
def write_pcap (env : Env) (st : State) : Outcome State :=
  match write_pcap_locals env st with
  | none => .ret st
  | some l =>
    if l.ret ≠ l.total_len then
      .ret { st with iov := l.iov, file := l.file }
    else
      .ret { st with iov := release_segments l.iov st.iov_cnt, iov_cnt := 1, file := l.file }

/-! ## `setup` (lines 103-151) -/

/-- Modelled from the spec: `PCAP_VERSION_MAJOR` comes from `include.h`, which is
not among the source files; the supported version is (2,4). -/
def PCAP_VERSION_MAJOR : Nat := 2

/-- Modelled from the spec: `PCAP_VERSION_MINOR` comes from `include.h`, which is
not among the source files; the supported version is (2,4). -/
def PCAP_VERSION_MINOR : Nat := 4

/-- The native value of the `size`-byte field at offset `off` of a buffer. -/
def field (bs : List Byte) (off size : Nat) : Nat :=
  le_decode ((bs.drop off).take size)

/-- The 24 bytes read into `pfh`, field by field. -/
def pfh_of_bytes (bs : List Byte) : pcap_file_header :=
  { magic := field bs 0 4
    version_major := field bs 4 2
    version_minor := field bs 6 2
    thiszone := field bs 8 4
    sigfigs := field bs 12 4
    snaplen := field bs 16 4
    linktype := field bs 20 4 }

/-- The 16 bytes read into `pph`, field by field. -/
def pkthdr_of_bytes (bs : List Byte) : pcap_pkthdr :=
  { ts_secs := field bs 0 4
    ts_usecs := field bs 4 4
    caplen := field bs 8 4
    len := field bs 12 4 }

/-- Lines 117-151 of `setup`: read the preamble from the freshly opened file and
validate it.  `magic_little` and `magic_big` are the values of `PCAP_MAGIC_LITTLE`
and `PCAP_MAGIC_BIG` (defined in a header that is not among the source files).  The segment
array and its count start out as the zero-initialised globals. -/
def setup_preamble (magic_little magic_big : Nat) (read_fails : Bool) (file : List Byte)
    (debug : Nat) : Outcome State :=
  let r := sys_read read_fails file 0 24
  let ret := r.1
  if ret ≤ 0 then .exit 1
  else if ret < 24 then .exit 1
  else
    let pfh := pfh_of_bytes r.2.1
    (if pfh.magic = magic_little then Outcome.ret 0
     else if pfh.magic = magic_big then Outcome.ret 1
     else Outcome.exit 1).bind fun reverseEndian =>
    let pfh :=
      if reverseEndian ≠ 0 then
        { pfh with
          version_major := reverse_assign 2 pfh.version_major
          version_minor := reverse_assign 2 pfh.version_minor
          linktype := reverse_assign 4 pfh.linktype }
      else pfh
    if pfh.version_major ≠ PCAP_VERSION_MAJOR ∨ pfh.version_minor ≠ PCAP_VERSION_MINOR then
      .exit 1
    else
      .ret { debug := debug, reverseEndian := reverseEndian, pfh := pfh,
             iov := List.replicate 10 ⟨[], 0⟩, iov_cnt := 0,
             file := file, read_pos := r.2.2 }

/-- What `setup` meets before it reads: whether `get_ip_and_filename` (from
`utils.h`) returned 0, whether each `open` succeeded, whether the `read` fails,
and the content of the file. -/
structure SetupEnv where
  get_ip_and_filename_ok : Bool
  open_read_ok : Bool
  open_write_ok : Bool
  read_fails : Bool
  file : List Byte

/-- The function `setup`. -/
def setup (magic_little magic_big : Nat) (env : SetupEnv) (debug : Nat) : Outcome State :=
  if !env.get_ip_and_filename_ok then .exit 123
  else if !env.open_read_ok || !env.open_write_ok then .exit 1
  else setup_preamble magic_little magic_big env.read_fails env.file debug

/-! ## `loop` (lines 153-234) -/

/-- Capacity of `in_packet`: `malloc(2 << 20)`. -/
def in_packet_capacity : Nat := 2097152

/-- The observable actions of one pass of the loop: bytes stored in `in_packet`
by `read` (indices below `n`), the store of line 197, the line printed at 218,
and the two calls of lines 223 and 231. -/
inductive Event where
  | buf_fill (n : Nat)
  | buf_store (i : Nat)
  | print_record (ts_secs ts_usecs caplen len : Nat)
  | process_ethernet (iov_cnt : Nat)
  | write_pcap
deriving DecidableEq

/-- How one pass of `while (1)` ends: the process exits, the pass sleeps and
starts over (line 173), it reaches the next pass, or it leaves the loop. -/
inductive Step where
  | exit (code : Nat)
  | retry (st : State)
  | next (st : State)
  | done (st : State)
deriving DecidableEq

/-- How the reading half of a pass (lines 159-219) ends; `frame` carries the
content of `in_packet` up to and including the terminator, the record header as
displayed, and the number of body bytes read. -/
inductive Fetched where
  | exit (code : Nat)
  | retry (st : State)
  | done (st : State)
  | frame (in_packet : List Byte) (pph : pcap_pkthdr) (ret : Int) (st : State)
deriving DecidableEq

/-- Lines 181-185: the first normalisation of `pph`. -/
def normalise_before_read (reverseEndian : Nat) (pph : pcap_pkthdr) : pcap_pkthdr :=
  if reverseEndian ≠ 0 then
    { pph with
      caplen := reverse_assign 4 pph.caplen
      ts_secs := reverse_assign 4 pph.ts_secs
      ts_usecs := reverse_assign 4 pph.ts_usecs }
  else pph

/-- Lines 202-206: the second normalisation of `pph`. -/
def normalise_after_read (reverseEndian : Nat) (pph : pcap_pkthdr) : pcap_pkthdr :=
  if reverseEndian ≠ 0 then
    { pph with
      ts_secs := reverse_assign 4 pph.ts_secs
      ts_usecs := reverse_assign 4 pph.ts_usecs
      len := reverse_assign 4 pph.len }
  else pph

/-- Lines 187-219: read the body of the record whose header, normalised at
lines 181-185, is `pph`; `st.read_pos` is the offset just after that header. -/
def loop_fetch_body (env : Env) (st : State) (pph : pcap_pkthdr) : List Event × Fetched :=
  let b := sys_read env.body_read_fails st.file st.read_pos pph.caplen
  let ret := wrap32 b.1
  let st := { st with read_pos := b.2.2 }
  let filled := [Event.buf_fill b.2.1.length]
  if ret < 0 then (filled, .exit 1)
  else if ret = 0 then (filled, .done st)
  else if ret < wrap32 pph.caplen then (filled, .exit 1)
  else
    let stored := filled ++ [Event.buf_store ret.toNat]
    let pph := normalise_after_read st.reverseEndian pph
    if env.malloc_fails then (stored, .exit 123)
    else
      (stored ++ [Event.print_record pph.ts_secs pph.ts_usecs pph.caplen pph.len],
       .frame (b.2.1 ++ [0]) pph ret st)

/-- Lines 159-219: read one record header and its body. -/
def loop_fetch (env : Env) (st : State) : List Event × Fetched :=
  let r := sys_read env.hdr_read_fails st.file st.read_pos 16
  let ret := wrap32 r.1
  let st := { st with read_pos := r.2.2 }
  if env.lseek_fails then ([], .exit 1)
  else if ret < 0 then ([], .exit 1)
  else if ret = 0 then ([], .retry st)
  else if ret < 16 then ([], .exit 1)
  else
    loop_fetch_body env st (normalise_before_read st.reverseEndian (pkthdr_of_bytes r.2.1))

/-- What `process_ethernet` hands back: its return value and the segment array
and count it leaves behind. -/
structure Dispatched where
  ret : Int
  iov : List iovec
  iov_cnt : Nat

/-- Lines 221-232: reset the segment count, dispatch, flush.  The function
`process_ethernet` lives in `ethernet.h`, which is not among the source files; it is a
parameter, given the frame, the count passed to it and the segment array. -/
def loop_dispatch (process_ethernet : List Byte → Nat → List iovec → Dispatched)
    (env : Env) (in_packet : List Byte) (st : State) : List Event × Step :=
  let st := { st with iov_cnt := 1 }
  if st.pfh.linktype = 1 then
    let called := [Event.process_ethernet st.iov_cnt]
    let d := process_ethernet in_packet st.iov_cnt st.iov
    let st := { st with iov := d.iov, iov_cnt := d.iov_cnt }
    if d.ret < 0 then (called, .done st)
    else if d.ret = 0 then (called, .next st)
    else
      match write_pcap env st with
      | .exit c => (called ++ [Event.write_pcap], .exit c)
      | .ret st => (called ++ [Event.write_pcap], .next st)
  else ([], .next st)

/-- One pass of the body of `while (1)` in `loop`. -/
def loop_body (process_ethernet : List Byte → Nat → List iovec → Dispatched)
    (env : Env) (st : State) : List Event × Step :=
  match loop_fetch env st with
  | (ev, .exit c) => (ev, .exit c)
  | (ev, .retry st) => (ev, .retry st)
  | (ev, .done st) => (ev, .done st)
  | (ev, .frame in_packet _ _ st) =>
    let d := loop_dispatch process_ethernet env in_packet st
    (ev ++ d.1, d.2)

/-- The function `loop`: passes of the body of `while (1)` until one ends the
process or leaves the loop; `envs n` is what the system answers during pass
`n`.  The result is `none` when `fuel` passes have not ended the loop. -/
def loop (process_ethernet : List Byte → Nat → List iovec → Dispatched) :
    (Nat → Env) → Nat → State → Option (Outcome State)
  | _, 0, _ => none
  | envs, fuel + 1, st =>
    match (loop_body process_ethernet (envs 0) st).2 with
    | .exit c => some (.exit c)
    | .done st => some (.ret st)
    | .retry st => loop process_ethernet (fun n => envs (n + 1)) fuel st
    | .next st => loop process_ethernet (fun n => envs (n + 1)) fuel st

/-! ## `print_help` and `main` (lines 236-277) -/

/-- The function `print_help`: it prints the usage text and calls `exit(0)`. -/
def print_help : Outcome Unit := .exit 0

/-- Lines 255-269: the scan of `argv[1 .. argc-1]`, given what is left of it,
`debug` and `filename` (`none` for `NULL`; `argv[argc]` is `NULL`). -/
def parse_args : List String → Nat → Option String → Outcome (Nat × Option String)
  | [], debug, filename => .ret (debug, filename)
  | arg :: rest, debug, filename =>
    if arg = "-d" then parse_args rest (debug + 1) filename
    else if arg = "-i" then
      match rest with
      | [] => .ret (debug, none)
      | value :: rest => parse_args rest debug (some value)
    else if arg = "-h" then print_help.bind fun _ => .exit 0
    else print_help.bind fun _ => .exit 99

/-- Lines 248-274 of `main`: everything before the call of `setup`.  It returns
the verbosity and the argument of `-i` handed to `setup`. -/
def main_args (argv : List String) : Outcome (Nat × String) :=
  (if argv.length < 2 then print_help.bind fun _ => Outcome.exit 99
   else Outcome.ret ()).bind fun _ =>
  (parse_args (argv.drop 1) 0 none).bind fun r =>
  match r.2 with
  | none => print_help.bind fun _ => .exit 99
  | some filename => .ret (r.1, filename)

/-- The function `main`: the exit status of the process, which is 0 when
`loop` returns; `none` when `fuel` passes have not ended the loop. -/
def main (magic_little magic_big : Nat)
    (process_ethernet : List Byte → Nat → List iovec → Dispatched) (senv : SetupEnv)
    (envs : Nat → Env) (fuel : Nat) (argv : List String) : Option Nat :=
  match main_args argv with
  | .exit c => some c
  | .ret r =>
    match setup magic_little magic_big senv r.1 with
    | .exit c => some c
    | .ret st =>
      match loop process_ethernet envs fuel st with
      | none => none
      | some (.exit c) => some c
      | some (.ret _) => some 0

/-! ## Specification-side definitions -/

/-- The specification's reading of an acceptable preamble: the read delivers 24 bytes,
the magic is one of the two constants, and the version, byte-swapped exactly
when the magic is the swapped one, is (2,4). -/
def spec_preamble_ok (magic_little magic_big : Nat) (read_fails : Bool) (file : List Byte) :
    Prop :=
  read_fails = false ∧ 24 ≤ file.length
    ∧ (field file 0 4 = magic_little ∨ field file 0 4 = magic_big)
    ∧ (if field file 0 4 = magic_big then bswap16 (field file 4 2) else field file 4 2) = 2
    ∧ (if field file 0 4 = magic_big then bswap16 (field file 6 2) else field file 6 2) = 4

/-- The captured length the record header at the read offset declares, in the
byte order of the file. -/
def declared_caplen (st : State) : Nat :=
  if st.reverseEndian ≠ 0 then bswap32 (field st.file (st.read_pos + 8) 4)
  else field st.file (st.read_pos + 8) 4

/-- The number of bytes the file holds after the record header at the read
offset. -/
def remaining_after_header (st : State) : Nat :=
  st.file.length - (st.read_pos + 16)

/-- The sum of the lengths of segments `1 .. iov_cnt-1` of an assembly. -/
def spec_payload_length (iov : List iovec) (iov_cnt : Nat) : Nat :=
  ∑ i ∈ Finset.Ico 1 iov_cnt, (iov.getD i ⟨[], 0⟩).iov_len

/-- The record the specification expects a flush to append: a header with the
clock and the payload length as both lengths, then segments `1 .. iov_cnt-1`. -/
def spec_reply_record (tv : Nat × Nat) (iov : List iovec) (iov_cnt : Nat) : List Byte :=
  pkthdr_bytes
      { ts_secs := tv.1 % 4294967296
        ts_usecs := tv.2 % 4294967296
        caplen := spec_payload_length iov iov_cnt % 4294967296
        len := spec_payload_length iov iov_cnt % 4294967296 }
    ++ (((iov.take iov_cnt).drop 1).map seg_bytes).flatten

/-! ## Sample inputs -/

/-- The value of `PCAP_MAGIC_LITTLE` in libpcap: the magic as a host of the
writer's byte order reads it. -/
def sample_magic_little : Nat := 0xa1b2c3d4

/-- The value of `PCAP_MAGIC_BIG` in libpcap: the magic as a host of the other
byte order reads it. -/
def sample_magic_big : Nat := 0xd4c3b2a1

/-- An environment in which no call fails; the clock reads 1 s, 2 us. -/
def env_ok : Env :=
  { hdr_read_fails := false, lseek_fails := false, body_read_fails := false,
    malloc_fails := false, gettimeofday := some (1, 2), writev_room := some 1000000 }

/-- As `env_ok`, but `writev` takes 10 bytes only. -/
def env_short_write : Env := { env_ok with writev_room := some 10 }

/-- The zero-initialised segment array. -/
def iov_empty : List iovec := List.replicate 10 ⟨[], 0⟩

/-- A preamble in the host's byte order: version (2,4), link type 1. -/
def native_preamble : List Byte :=
  [0xd4, 0xc3, 0xb2, 0xa1, 2, 0, 4, 0, 0, 0, 0, 0, 0, 0, 0, 0, 0xff, 0xff, 0, 0, 1, 0, 0, 0]

/-- A preamble in the other byte order: version (2,4), link type 1. -/
def swapped_preamble : List Byte :=
  [0xa1, 0xb2, 0xc3, 0xd4, 0, 2, 0, 4, 0, 0, 0, 0, 0, 0, 0, 0, 0, 0, 0xff, 0xff, 0, 0, 0, 1]

/-- The state `setup` leaves behind for a native-order file with the given
records. -/
def native_state (records : List Byte) : State :=
  { debug := 0, reverseEndian := 0
    pfh := { magic := 0xa1b2c3d4, version_major := 2, version_minor := 4, thiszone := 0,
             sigfigs := 0, snaplen := 65535, linktype := 1 }
    iov := iov_empty, iov_cnt := 0, file := native_preamble ++ records, read_pos := 24 }

/-- The state `setup` leaves behind for a swapped-order file with the given
records (`snaplen` is not normalised by `setup`). -/
def swapped_state (records : List Byte) : State :=
  { debug := 0, reverseEndian := 1
    pfh := { magic := 0xd4c3b2a1, version_major := 2, version_minor := 4, thiszone := 0,
             sigfigs := 0, snaplen := 0xffff0000, linktype := 1 }
    iov := iov_empty, iov_cnt := 0, file := swapped_preamble ++ records, read_pos := 24 }

/-- A record of a swapped-order file: seconds 1, microseconds 2, captured and
original length 3, and three body bytes. -/
def swapped_record : List Byte :=
  [0, 0, 0, 1, 0, 0, 0, 2, 0, 0, 0, 3, 0, 0, 0, 3, 0xaa, 0xbb, 0xcc]

/-- A reply of three bytes in slot 1, ready to be flushed. -/
def iov_reply : List iovec :=
  [⟨[], 0⟩, ⟨[7, 8, 9], 3⟩] ++ List.replicate 8 ⟨[], 0⟩

/-- A stand-in for `process_ethernet` that decides no reply is due. -/
def sample_no_reply : List Byte → Nat → List iovec → Dispatched :=
  fun _ _ iov => { ret := 0, iov := iov, iov_cnt := 1 }

/-- A stand-in for `process_ethernet` that builds a three-byte reply. -/
def sample_reply : List Byte → Nat → List iovec → Dispatched :=
  fun _ _ _ => { ret := 1, iov := iov_reply, iov_cnt := 2 }

/-- The swapped-order file after `loop` has read its record and
`process_ethernet` has left a three-byte reply in slot 1. -/
def swapped_flush_state : State :=
  { swapped_state swapped_record with iov := iov_reply, iov_cnt := 2, read_pos := 43 }

/-- A record of a native-order file: seconds 1, microseconds 2, captured and
original length 3, and three body bytes. -/
def native_record : List Byte :=
  [1, 0, 0, 0, 2, 0, 0, 0, 3, 0, 0, 0, 3, 0, 0, 0, 0xaa, 0xbb, 0xcc]

/-- The native-order file after `loop` has read its record and
`process_ethernet` has left a three-byte reply in slot 1. -/
def native_flush_state : State :=
  { native_state native_record with iov := iov_reply, iov_cnt := 2, read_pos := 43 }

/-- The record `write_pcap` appends for `iov_reply` under `env_ok`. -/
def flushed_record : List Byte :=
  [1, 0, 0, 0, 2, 0, 0, 0, 3, 0, 0, 0, 3, 0, 0, 0, 7, 8, 9]

/-- A record header declaring ten captured bytes, with nothing after it. -/
def bare_header : List Byte :=
  [1, 0, 0, 0, 2, 0, 0, 0, 10, 0, 0, 0, 10, 0, 0, 0]

/-- A record declaring a captured length of 2147483648 (`80 00 00 00` read
natively), followed by three bytes only. -/
def huge_record : List Byte :=
  [1, 0, 0, 0, 2, 0, 0, 0, 0, 0, 0, 0x80, 3, 0, 0, 0, 0xaa, 0xbb, 0xcc]

/-- A record header declaring a captured length of 0. -/
def zero_record : List Byte :=
  [1, 0, 0, 0, 2, 0, 0, 0, 0, 0, 0, 0, 0, 0, 0, 0]

/-- A file system in which `setup` finds the given file and no call fails. -/
def setup_env_ok (file : List Byte) : SetupEnv :=
  { get_ip_and_filename_ok := true, open_read_ok := true, open_write_ok := true,
    read_fails := false, file := file }

/-- A record header declaring 2097152 captured bytes, the capacity of
`in_packet`. -/
def jumbo_header : List Byte :=
  [1, 0, 0, 0, 2, 0, 0, 0, 0, 0, 0x20, 0, 0, 0, 0x20, 0]

/-- A record body of 2097152 zero bytes. -/
def jumbo_body : List Byte := List.replicate 2097152 0

/-- A native-order file whose one record has a body of 2097152 bytes. -/
def jumbo_state : State :=
  native_state (jumbo_header ++ jumbo_body)

/-! ## Fixed-width arithmetic -/

theorem reverse_assign_four (v : Nat) : reverse_assign 4 v = bswap32 v := by
  simp [reverse_assign, le_encode, le_decode, bswap32, Nat.div_div_eq_div_mul]
  omega

theorem reverse_assign_two (v : Nat) : reverse_assign 2 v = bswap16 v := by
  simp [reverse_assign, le_encode, le_decode, bswap16, Nat.div_div_eq_div_mul]
  omega

theorem length_le_encode (n v : Nat) : (le_encode n v).length = n := by
  induction n generalizing v with
  | zero => rfl
  | succ n ih => simp [le_encode, ih]

theorem le_encode_le_decode (bs : List Byte) : le_encode bs.length (le_decode bs) = bs := by
  induction bs with
  | nil => rfl
  | cons b bs ih =>
    have hb := b.isLt
    have h1 : (b.val + 256 * le_decode bs) % 256 = b.val := by omega
    have h2 : (b.val + 256 * le_decode bs) / 256 = le_decode bs := by omega
    simp only [List.length_cons, le_decode, le_encode, h2, ih, List.cons.injEq, and_true]
    exact Fin.ext h1

theorem le_decode_le_encode (n v : Nat) : le_decode (le_encode n v) = v % 256 ^ n := by
  induction n generalizing v with
  | zero => simp [le_encode, le_decode, Nat.mod_one]
  | succ n ih =>
    simp only [le_encode, le_decode, ih, pow_succ]
    rw [Nat.mul_comm (256 ^ n) 256, Nat.mod_mul]

theorem le_decode_lt (bs : List Byte) : le_decode bs < 256 ^ bs.length := by
  induction bs with
  | nil => simp [le_decode]
  | cons b bs ih =>
    simp only [le_decode, List.length_cons, pow_succ]
    have := b.isLt
    omega

theorem reverse_assign_twice (n v : Nat) :
    reverse_assign n (reverse_assign n v) = v % 256 ^ n := by
  unfold reverse_assign
  have hlen : ((le_encode n v).reverse).length = n := by simp [length_le_encode]
  have h := le_encode_le_decode (le_encode n v).reverse
  rw [hlen] at h
  rw [h, List.reverse_reverse, le_decode_le_encode]

theorem field_lt (bs : List Byte) (off size : Nat) : field bs off size < 256 ^ size := by
  unfold field
  have h := le_decode_lt ((bs.drop off).take size)
  have h2 : ((bs.drop off).take size).length ≤ size := by simp
  exact lt_of_lt_of_le h (Nat.pow_le_pow_right (by decide) h2)

/-! ## Record headers read by `loop` -/

/-- With the swapped magic, the record header as displayed: `caplen` and `len`
carry the byte swap of what was read, `ts_secs` and `ts_usecs` are reversed at
line 183-184 and again at line 203-204, which restores what was read. -/
theorem normalise_swapped (bs : List Byte) :
    normalise_after_read 1 (normalise_before_read 1 (pkthdr_of_bytes bs))
      = { ts_secs := field bs 0 4
          ts_usecs := field bs 4 4
          caplen := bswap32 (field bs 8 4)
          len := bswap32 (field bs 12 4) } := by
  have h0 := field_lt bs 0 4
  have h4 := field_lt bs 4 4
  have e0 : reverse_assign 4 (reverse_assign 4 (field bs 0 4)) = field bs 0 4 := by
    rw [reverse_assign_twice]; exact Nat.mod_eq_of_lt h0
  have e4 : reverse_assign 4 (reverse_assign 4 (field bs 4 4)) = field bs 4 4 := by
    rw [reverse_assign_twice]; exact Nat.mod_eq_of_lt h4
  simp [normalise_after_read, normalise_before_read, pkthdr_of_bytes, e0, e4,
    ← reverse_assign_four]

/-- C1, evaluated on a swapped-order file whose first record carries seconds 1,
microseconds 2 and both lengths 3: `setup` accepts the file with
`reverseEndian = 1`, and `loop` displays seconds 16777216 and microseconds
33554432, the native reading of the raw bytes, where the byte swap of that
reading is 1 and 2; only the two lengths are displayed byte-swapped. -/
theorem loop_displays_unswapped_timestamps :
    setup_preamble sample_magic_little sample_magic_big false
        (swapped_preamble ++ swapped_record) 0 = .ret (swapped_state swapped_record)
    ∧ (loop_fetch env_ok (swapped_state swapped_record)).1
        = [Event.buf_fill 3, Event.buf_store 3, Event.print_record 16777216 33554432 3 3]
    ∧ field swapped_record 0 4 = 16777216 ∧ bswap32 (field swapped_record 0 4) = 1
    ∧ field swapped_record 4 4 = 33554432 ∧ bswap32 (field swapped_record 4 4) = 2
    ∧ bswap32 (field swapped_record 8 4) = 3 ∧ bswap32 (field swapped_record 12 4) = 3 := by
  decide

/-! ## The preamble read by `setup` -/

theorem field_take (bs : List Byte) (n off size : Nat) (h : off + size ≤ n) :
    field (bs.take n) off size = field bs off size := by
  unfold field
  rw [List.drop_take, List.take_take]
  have e : min size (n - off) = size := by omega
  rw [e]

/-- C6: with two distinct magic constants, `setup`'s preamble validation returns
exactly when the read delivers 24 bytes, the magic is `PCAP_MAGIC_LITTLE` or
`PCAP_MAGIC_BIG` and the version, byte-swapped exactly for `PCAP_MAGIC_BIG`, is
(2,4); otherwise the process exits with status 1.  On success `reverseEndian`
is 0 for the native and 1 for the swapped magic, and the link type held in
`pfh` (the one printed) is the preamble's field, byte-swapped exactly for the
swapped magic. -/
theorem setup_preamble_validates (magic_little magic_big : Nat)
    (hmagic : magic_little ≠ magic_big) (read_fails : Bool) (file : List Byte) (debug : Nat) :
    (spec_preamble_ok magic_little magic_big read_fails file →
      ∃ st, setup_preamble magic_little magic_big read_fails file debug = .ret st
        ∧ st.reverseEndian = (if field file 0 4 = magic_big then 1 else 0)
        ∧ st.pfh.linktype
            = (if field file 0 4 = magic_big then bswap32 (field file 20 4)
               else field file 20 4)
        ∧ st.pfh.version_major = 2 ∧ st.pfh.version_minor = 4
        ∧ st.file = file ∧ st.read_pos = 24)
    ∧ (¬ spec_preamble_ok magic_little magic_big read_fails file →
        setup_preamble magic_little magic_big read_fails file debug = .exit 1) := by
  unfold spec_preamble_ok
  cases read_fails with
  | true => simp [setup_preamble, sys_read]
  | false =>
    by_cases hlen : 24 ≤ file.length
    · have hl : ((file.drop 0).take 24).length = 24 := by simp; omega
      have e0 : field (List.take 24 file) 0 4 = field file 0 4 := field_take _ _ _ _ (by omega)
      have e4 : field (List.take 24 file) 4 2 = field file 4 2 := field_take _ _ _ _ (by omega)
      have e6 : field (List.take 24 file) 6 2 = field file 6 2 := field_take _ _ _ _ (by omega)
      have e20 : field (List.take 24 file) 20 4 = field file 20 4 :=
        field_take _ _ _ _ (by omega)
      by_cases hL : field file 0 4 = magic_little
      · have hB : ¬ field file 0 4 = magic_big := by rw [hL]; exact hmagic
        simp [setup_preamble, sys_read, hlen, pfh_of_bytes, e0, e4, e6, e20, hL, hmagic,
          Outcome.bind, PCAP_VERSION_MAJOR, PCAP_VERSION_MINOR]
        intro h1 h2
        simp [h1, h2]
      · by_cases hB : field file 0 4 = magic_big
        · have hBL : ¬ magic_big = magic_little := fun h => hmagic h.symm
          simp [setup_preamble, sys_read, hlen, pfh_of_bytes, e0, e4, e6, e20, hB, hBL,
            Outcome.bind, PCAP_VERSION_MAJOR, PCAP_VERSION_MINOR, reverse_assign_two,
            reverse_assign_four]
          intro h1 h2
          simp [h1, h2]
        · simp [setup_preamble, sys_read, hlen, pfh_of_bytes, e0, hL, hB, Outcome.bind]
    · have hlt : file.length < 24 := by omega
      simp [setup_preamble, sys_read, hlen]

theorem setup_preamble_validates_witness :
    sample_magic_little ≠ sample_magic_big
    ∧ spec_preamble_ok sample_magic_little sample_magic_big false
        (native_preamble ++ native_record)
    ∧ ∃ st, setup_preamble sample_magic_little sample_magic_big false
          (native_preamble ++ native_record) 0 = .ret st
        ∧ st.reverseEndian = 0 ∧ st.pfh.linktype = 1 := by
  have hok : spec_preamble_ok sample_magic_little sample_magic_big false
      (native_preamble ++ native_record) := by
    unfold spec_preamble_ok
    decide
  obtain ⟨st, hs, hr, hl, _⟩ :=
    (setup_preamble_validates sample_magic_little sample_magic_big (by decide) false
      (native_preamble ++ native_record) 0).1 hok
  refine ⟨by decide, hok, st, hs, ?_, ?_⟩
  · rw [hr]; decide
  · rw [hl]; decide

/-! ## Records written by `write_pcap` -/

/-- The record header `write_pcap` builds and the bytes it hands to `writev` do
not depend on `reverseEndian`. -/
theorem write_pcap_locals_reverseEndian (env : Env) (st : State) (r : Nat) :
    write_pcap_locals env { st with reverseEndian := r } = write_pcap_locals env st := rfl

/-- C2, evaluated on a swapped-order file (`reverseEndian = 1`) with a three-byte
reply at clock 1 s, 2 us: the header bytes `write_pcap` appends are the
host-order images `01 00 00 00 02 00 00 00 03 00 00 00 03 00 00 00`, not their
byte swaps, and when `loop` reads that record back it takes the captured length
to be 50331648 and exits with status 1 on the three bytes that follow. -/
theorem write_pcap_header_in_host_order :
    swapped_flush_state.reverseEndian = 1
    ∧ write_pcap env_ok swapped_flush_state
        = .ret { swapped_flush_state with
                 iov := iov_empty, iov_cnt := 1
                 file := swapped_preamble ++ swapped_record ++ flushed_record }
    ∧ flushed_record.take 16
        = le_encode 4 1 ++ le_encode 4 2 ++ le_encode 4 3 ++ le_encode 4 3
    ∧ flushed_record.take 16
        ≠ le_encode 4 (bswap32 1) ++ le_encode 4 (bswap32 2) ++ le_encode 4 (bswap32 3)
            ++ le_encode 4 (bswap32 3)
    ∧ (normalise_before_read 1 (pkthdr_of_bytes flushed_record)).caplen = 50331648
    ∧ loop_fetch env_ok
        { swapped_flush_state with
          iov := iov_empty, iov_cnt := 1
          file := swapped_preamble ++ swapped_record ++ flushed_record }
        = ([Event.buf_fill 3], .exit 1) := by
  decide

theorem wrap64_add_left (a b : Int) : wrap64 (wrap64 a + b) = wrap64 (a + b) := by
  unfold wrap64; omega

theorem wrap64_of_range (x : Int) (h0 : -9223372036854775808 ≤ x) (h1 : x < 9223372036854775808) :
    wrap64 x = x := by
  unfold wrap64; omega

theorem wrap64_emod (x : Int) : wrap64 x % 4294967296 = x % 4294967296 := by
  unfold wrap64; omega

theorem foldl_total_len (len : Nat → Nat) (n : Nat) :
    ∀ (s : Nat) (a : Int),
      (List.range' s n).foldl (fun total_len i => wrap64 (total_len + (len i : Nat))) (wrap64 a)
        = wrap64 (a + ((∑ i ∈ Finset.Ico s (s + n), len i : Nat) : Int)) := by
  induction n with
  | zero => intro s a; simp
  | succ n ih =>
    intro s a
    rw [List.range'_succ, List.foldl_cons, wrap64_add_left, ih]
    congr 1
    rw [Finset.sum_eq_sum_Ico_succ_bot (by omega : s < s + (n + 1))]
    have : s + 1 + n = s + (n + 1) := by omega
    rw [this]
    push_cast
    ring

theorem payload_total_eq (iov : List iovec) (iov_cnt : Nat) (h1 : 1 ≤ iov_cnt) :
    payload_total iov iov_cnt
      = wrap64 ((∑ i ∈ Finset.Ico 1 iov_cnt, (iov.getD i ⟨[], 0⟩).iov_len : Nat) : Int) := by
  unfold payload_total
  have h := foldl_total_len (fun i => (iov.getD i ⟨[], 0⟩).iov_len) (iov_cnt - 1) 1 0
  have e : 1 + (iov_cnt - 1) = iov_cnt := by omega
  rw [e] at h
  have w0 : wrap64 0 = 0 := by decide
  rw [w0] at h
  simpa using h

theorem sum_segments_with_header (iov : List iovec) (iov_cnt : Nat) (hdr : iovec)
    (h1 : 1 ≤ iov_cnt) (h2 : iov_cnt ≤ iov.length) :
    (∑ i ∈ Finset.range iov_cnt, ((iov.set 0 hdr).getD i ⟨[], 0⟩).iov_len)
      = hdr.iov_len + ∑ i ∈ Finset.Ico 1 iov_cnt, (iov.getD i ⟨[], 0⟩).iov_len := by
  rw [Finset.range_eq_Ico, Finset.sum_eq_sum_Ico_succ_bot (by omega : 0 < iov_cnt)]
  congr 1
  · cases iov with
    | nil => simp at h2; omega
    | cons x xs => simp
  · apply Finset.sum_congr rfl
    intro i hi
    have hi1 : 1 ≤ i := (Finset.mem_Ico.mp hi).1
    cases iov with
    | nil => simp
    | cons x xs =>
      cases i with
      | zero => omega
      | succ j => simp

/-- C3: when `gettimeofday` succeeds and `1 ≤ iov_cnt ≤` the length of the
segment array, the record header `write_pcap` builds has `caplen = len =` the
sum of `iov[i].iov_len` over `i = 1 .. iov_cnt-1` modulo `2^32`; the count that
`writev` must return is that sum plus 16 as a `long long`, which is the total
of all `iov_cnt` segment lengths once slot 0 holds the header, and is exactly
that total whenever the total fits a `long long` (below `2^63`). -/
theorem write_pcap_record_lengths (env : Env) (st : State) (tv : Nat × Nat)
    (htv : env.gettimeofday = some tv) (h1 : 1 ≤ st.iov_cnt)
    (h2 : st.iov_cnt ≤ st.iov.length) :
    ∃ l, write_pcap_locals env st = some l
      ∧ l.pcap_hdr.caplen
          = (∑ i ∈ Finset.Ico 1 st.iov_cnt, (st.iov.getD i ⟨[], 0⟩).iov_len) % 4294967296
      ∧ l.pcap_hdr.len
          = (∑ i ∈ Finset.Ico 1 st.iov_cnt, (st.iov.getD i ⟨[], 0⟩).iov_len) % 4294967296
      ∧ (∑ i ∈ Finset.range st.iov_cnt, (l.iov.getD i ⟨[], 0⟩).iov_len)
          = 16 + ∑ i ∈ Finset.Ico 1 st.iov_cnt, (st.iov.getD i ⟨[], 0⟩).iov_len
      ∧ l.total_len
          = wrap64 ((∑ i ∈ Finset.range st.iov_cnt, (l.iov.getD i ⟨[], 0⟩).iov_len : Nat) : Int)
      ∧ ((∑ i ∈ Finset.range st.iov_cnt, (l.iov.getD i ⟨[], 0⟩).iov_len)
            < 9223372036854775808 →
          l.total_len
            = ((16 + ∑ i ∈ Finset.Ico 1 st.iov_cnt, (st.iov.getD i ⟨[], 0⟩).iov_len : Nat)
                : Int)) := by
  obtain ⟨tv_sec, tv_usec⟩ := tv
  have hp := payload_total_eq st.iov st.iov_cnt h1
  simp only [write_pcap_locals, htv]
  refine ⟨_, rfl, ?_, ?_, ?_, ?_, ?_⟩
  · simp only [hp, wrap64_emod]
    omega
  · simp only [hp, wrap64_emod]
    omega
  · exact sum_segments_with_header st.iov st.iov_cnt _ h1 h2
  · simp only [hp, wrap64_add_left]
    rw [sum_segments_with_header st.iov st.iov_cnt _ h1 h2]
    congr 1
    push_cast
    ring
  · intro hlt
    rw [sum_segments_with_header st.iov st.iov_cnt _ h1 h2] at hlt
    simp only [] at hlt
    simp only [hp, wrap64_add_left]
    rw [wrap64_of_range]
    · rw [Nat.cast_add, add_comm]; rfl
    · omega
    · omega

theorem write_pcap_record_lengths_witness :
    env_ok.gettimeofday = some (1, 2) ∧ 1 ≤ native_flush_state.iov_cnt
      ∧ native_flush_state.iov_cnt ≤ native_flush_state.iov.length
      ∧ ∃ l, write_pcap_locals env_ok native_flush_state = some l
          ∧ l.pcap_hdr.caplen = 3 ∧ l.pcap_hdr.len = 3 ∧ l.total_len = 19 := by
  obtain ⟨l, hl, hc, hn, hs, _, ht⟩ :=
    write_pcap_record_lengths env_ok native_flush_state (1, 2) rfl (by decide) (by decide)
  have e : (∑ i ∈ Finset.Ico 1 native_flush_state.iov_cnt,
      (native_flush_state.iov.getD i ⟨[], 0⟩).iov_len) = 3 := by decide
  rw [e] at hc hn hs ht
  refine ⟨rfl, by decide, by decide, l, hl, hc, hn, ?_⟩
  exact ht (by rw [hs]; decide)

theorem release_segments_succ (iov : List iovec) (n : Nat) :
    release_segments iov (n + 1) = (release_segments iov n).set n ⟨[], 0⟩ := by
  simp [release_segments, List.range_succ, List.foldl_append]

theorem length_release_segments (iov : List iovec) (n : Nat) :
    (release_segments iov n).length = iov.length := by
  induction n with
  | zero => simp [release_segments]
  | succ n ih => rw [release_segments_succ, List.length_set, ih]

theorem release_segments_cleared (iov : List iovec) (n i : Nat) (hi : i < n)
    (hl : i < iov.length) : (release_segments iov n)[i]? = some ⟨[], 0⟩ := by
  induction n with
  | zero => omega
  | succ n ih =>
    rw [release_segments_succ]
    by_cases h : i = n
    · subst h
      rw [List.getElem?_set_self]
      rw [length_release_segments]
      exact hl
    · rw [List.getElem?_set_ne (Ne.symm h)]
      exact ih (by omega)

theorem write_pcap_ne_exit (env : Env) (st : State) (c : Nat) :
    write_pcap env st ≠ .exit c := by
  unfold write_pcap
  split
  · simp
  · split_ifs <;> simp

/-- C7 as the code has it: `write_pcap` always returns to its caller, the process
does not end there, and the pass of `loop` that called it goes on to the next
record.  When the count `writev` reports differs from `total_len`, the segments
stay as they were handed to `writev` and `iov_cnt` is unchanged; only when the
counts are equal are the slots below `iov_cnt` released and `iov_cnt` reset to 1. -/
theorem write_pcap_always_returns (env : Env) (st : State) (l : WriteLocals)
    (hl : write_pcap_locals env st = some l) :
    (∃ st', write_pcap env st = .ret st'
      ∧ st'.file = l.file
      ∧ (l.ret ≠ l.total_len → st'.iov = l.iov ∧ st'.iov_cnt = st.iov_cnt)
      ∧ (l.ret = l.total_len →
          st'.iov_cnt = 1 ∧ st'.iov.length = st.iov.length
          ∧ ∀ i, i < st.iov_cnt → i < st.iov.length → st'.iov[i]? = some ⟨[], 0⟩))
    ∧ ∀ (process_ethernet : List Byte → Nat → List iovec → Dispatched) (in_packet : List Byte)
        (st0 : State), st0.pfh.linktype = 1 → 0 < (process_ethernet in_packet 1 st0.iov).ret →
        ∃ st', (loop_dispatch process_ethernet env in_packet st0).2 = .next st' := by
  constructor
  · have hlen : l.iov.length = st.iov.length := by
      unfold write_pcap_locals at hl
      cases hg : env.gettimeofday with
      | none => simp [hg] at hl
      | some tv =>
        simp only [hg, Option.some.injEq] at hl
        rw [← hl]
        simp
    unfold write_pcap
    rw [hl]
    by_cases h : l.ret = l.total_len
    · refine ⟨{ st with iov := release_segments l.iov st.iov_cnt, iov_cnt := 1, file := l.file },
        by simp [h], rfl, ?_, ?_⟩
      · intro hne; exact absurd h hne
      · intro _
        refine ⟨rfl, ?_, ?_⟩
        · simp only [length_release_segments, hlen]
        · intro i hi hil
          exact release_segments_cleared l.iov st.iov_cnt i hi (by rw [hlen]; exact hil)
    · refine ⟨{ st with iov := l.iov, file := l.file }, by simp [h], rfl, ?_, ?_⟩
      · intro _; exact ⟨rfl, rfl⟩
      · intro he; exact absurd he h
  · intro pe pkt st0 hlt hpos
    unfold loop_dispatch
    simp only [hlt, if_true]
    have h1 : ¬ (pe pkt 1 st0.iov).ret < 0 := by omega
    have h2 : ¬ (pe pkt 1 st0.iov).ret = 0 := by omega
    simp only [h1, h2, if_false]
    split
    · rename_i c heq
      exact absurd heq (write_pcap_ne_exit _ _ _)
    · exact ⟨_, rfl⟩

theorem write_pcap_always_returns_witness :
    write_pcap_locals env_short_write native_flush_state
        = some { pcap_hdr := ⟨1, 2, 3, 3⟩, total_len := 19, ret := 10
                 iov := iov_reply.set 0 ⟨flushed_record.take 16, 16⟩
                 file := native_preamble ++ native_record ++ flushed_record.take 10 }
    ∧ ∃ st', write_pcap env_short_write native_flush_state = .ret st'
        ∧ st'.iov_cnt = 2 := by
  have hl : write_pcap_locals env_short_write native_flush_state
      = some { pcap_hdr := ⟨1, 2, 3, 3⟩, total_len := 19, ret := 10
               iov := iov_reply.set 0 ⟨flushed_record.take 16, 16⟩
               file := native_preamble ++ native_record ++ flushed_record.take 10 } := by
    decide
  obtain ⟨⟨st', hw, _, hne, _⟩, _⟩ :=
    write_pcap_always_returns env_short_write native_flush_state _ hl
  exact ⟨hl, st', hw, (hne (by decide)).2⟩

/-- C7 is false as stated: with `writev` taking 10 of the 19 bytes of a record,
`write_pcap` returns, leaving the ten bytes in the file and the segments
unreleased, and the pass of `loop` that called it ends by going on to the next
pass, not by ending the process. -/
theorem short_write_is_not_fatal :
    (write_pcap_locals env_short_write native_flush_state).map (fun l => (l.ret, l.total_len))
        = some (10, 19)
    ∧ write_pcap env_short_write native_flush_state
        = .ret { native_flush_state with
                 iov := iov_reply.set 0 ⟨flushed_record.take 16, 16⟩
                 file := native_preamble ++ native_record ++ flushed_record.take 10 }
    ∧ (loop_body sample_reply env_short_write (native_state native_record)).2
        = .next { native_flush_state with
                  iov := iov_reply.set 0 ⟨flushed_record.take 16, 16⟩
                  file := native_preamble ++ native_record ++ flushed_record.take 10 } := by
  decide

/-! ## Records read by `loop` -/

theorem wrap32_of_lt (n : Nat) (h : n < 2147483648) : wrap32 (n : Int) = n := by
  unfold wrap32; omega

theorem sys_read_ok (file : List Byte) (pos count : Nat) :
    sys_read false file pos count
      = (((((file.drop pos).take count).length : Nat) : Int), (file.drop pos).take count,
          pos + ((file.drop pos).take count).length) := rfl

theorem sys_read_failed (file : List Byte) (pos count : Nat) :
    sys_read true file pos count = (-1, [], pos) := rfl

theorem field_header (file : List Byte) (pos off size : Nat) (h : off + size ≤ 16) :
    field ((file.drop pos).take 16) off size = field file (pos + off) size := by
  rw [field_take _ _ _ _ h]
  unfold field
  rw [List.drop_drop]

theorem caplen_before_read (st : State) :
    (normalise_before_read st.reverseEndian
        (pkthdr_of_bytes ((st.file.drop st.read_pos).take 16))).caplen = declared_caplen st := by
  unfold normalise_before_read declared_caplen pkthdr_of_bytes
  split_ifs <;> simp only [reverse_assign_four] <;> rw [field_header _ _ _ _ (by omega)]

/-- A full record header at the read offset: `loop` goes on to read the body. -/
theorem loop_fetch_header (env : Env) (st : State) (hh : env.hdr_read_fails = false)
    (hs : env.lseek_fails = false) (hlen : st.read_pos + 16 ≤ st.file.length) :
    loop_fetch env st
      = loop_fetch_body env { st with read_pos := st.read_pos + 16 }
          (normalise_before_read st.reverseEndian
            (pkthdr_of_bytes ((st.file.drop st.read_pos).take 16))) := by
  have hl : ((st.file.drop st.read_pos).take 16).length = 16 := by
    simp only [List.length_take, List.length_drop]; omega
  have hw : wrap32 ((16 : Nat) : Int) = 16 := by decide
  simp only [loop_fetch, hh, hs, sys_read_ok, hl, hw]
  simp

theorem loop_fetch_body_frame (env : Env) (st : State) (pph : pcap_pkthdr)
    (hb : env.body_read_fails = false) (hm : env.malloc_fails = false)
    (h0 : 0 < pph.caplen) (h1 : pph.caplen < 2147483648)
    (h2 : st.read_pos + pph.caplen ≤ st.file.length) :
    loop_fetch_body env st pph
      = ([Event.buf_fill pph.caplen, Event.buf_store pph.caplen,
          Event.print_record (normalise_after_read st.reverseEndian pph).ts_secs
            (normalise_after_read st.reverseEndian pph).ts_usecs
            (normalise_after_read st.reverseEndian pph).caplen
            (normalise_after_read st.reverseEndian pph).len],
         .frame ((st.file.drop st.read_pos).take pph.caplen ++ [0])
           (normalise_after_read st.reverseEndian pph) pph.caplen
           { st with read_pos := st.read_pos + pph.caplen }) := by
  have hl : ((st.file.drop st.read_pos).take pph.caplen).length = pph.caplen := by
    simp only [List.length_take, List.length_drop]; omega
  have hw := wrap32_of_lt pph.caplen h1
  have hn : ¬ ((pph.caplen : Nat) : Int) < 0 := by omega
  have hz : ¬ ((pph.caplen : Nat) : Int) = 0 := by omega
  simp only [loop_fetch_body, hb, hm, sys_read_ok, hl, hw]
  simp [hn, hz]

theorem loop_fetch_body_truncated (env : Env) (st : State) (pph : pcap_pkthdr)
    (h0 : st.read_pos < st.file.length) (h1 : pph.caplen < 2147483648)
    (h2 : st.file.length - st.read_pos < pph.caplen) :
    (loop_fetch_body env st pph).2 = .exit 1 := by
  cases hb : env.body_read_fails with
  | true =>
    have hw : wrap32 (-1) = -1 := by decide
    simp only [loop_fetch_body, hb, sys_read_failed, hw]
    simp
  | false =>
    have hl : ((st.file.drop st.read_pos).take pph.caplen).length
        = st.file.length - st.read_pos := by
      simp only [List.length_take, List.length_drop]; omega
    have hw := wrap32_of_lt pph.caplen h1
    have hw2 := wrap32_of_lt (st.file.length - st.read_pos) (by omega)
    have hn : ¬ ((st.file.length - st.read_pos : Nat) : Int) < 0 := by omega
    have hz : ¬ ((st.file.length - st.read_pos : Nat) : Int) = 0 := by omega
    have hlt : ((st.file.length - st.read_pos : Nat) : Int) < ((pph.caplen : Nat) : Int) := by
      omega
    simp only [loop_fetch_body, hb, sys_read_ok, hl, hw, hw2]
    simp only [hn, hz, hlt, if_true, if_false]

theorem loop_fetch_body_nothing_read (env : Env) (st : State) (pph : pcap_pkthdr)
    (hb : env.body_read_fails = false)
    (h : pph.caplen = 0 ∨ st.file.length ≤ st.read_pos) :
    loop_fetch_body env st pph = ([Event.buf_fill 0], .done st) := by
  have hl : ((st.file.drop st.read_pos).take pph.caplen).length = 0 := by
    simp only [List.length_take, List.length_drop]; omega
  have hw : wrap32 ((0 : Nat) : Int) = 0 := by decide
  simp only [loop_fetch_body, hb, sys_read_ok, hl, hw]
  simp

theorem loop_body_exit (process_ethernet : List Byte → Nat → List iovec → Dispatched)
    (env : Env) (st : State) (c : Nat) (h : (loop_fetch env st).2 = .exit c) :
    (loop_body process_ethernet env st).2 = .exit c := by
  unfold loop_body
  rcases hf : loop_fetch env st with ⟨ev, f⟩
  rw [hf] at h
  cases f <;> simp_all

theorem loop_body_done (process_ethernet : List Byte → Nat → List iovec → Dispatched)
    (env : Env) (st st' : State) (ev : List Event) (h : loop_fetch env st = (ev, .done st')) :
    loop_body process_ethernet env st = (ev, .done st') := by
  unfold loop_body
  rw [h]

/-- C4 as the code has it: after a full record header, when the bytes `r` that
remain are fewer than the declared captured length, `loop` ends the process
with status 1 if `0 < r` and the captured length is below `2^31`; when no byte
remains (`r = 0`) the body read returns 0 and `loop` takes it for end of file
and leaves the loop, with no exit status of its own. -/
theorem loop_truncated_record (process_ethernet : List Byte → Nat → List iovec → Dispatched)
    (env : Env) (st : State) (hh : env.hdr_read_fails = false) (hs : env.lseek_fails = false)
    (hlen : st.read_pos + 16 ≤ st.file.length) :
    (0 < remaining_after_header st → remaining_after_header st < declared_caplen st →
        declared_caplen st < 2147483648 →
        (loop_body process_ethernet env st).2 = .exit 1)
    ∧ (remaining_after_header st = 0 → env.body_read_fails = false →
        loop_body process_ethernet env st
          = ([Event.buf_fill 0], .done { st with read_pos := st.read_pos + 16 })) := by
  have hf := loop_fetch_header env st hh hs hlen
  have hc := caplen_before_read st
  constructor
  · intro h0 h1 h2
    apply loop_body_exit
    rw [hf]
    apply loop_fetch_body_truncated
    · show st.read_pos + 16 < st.file.length
      unfold remaining_after_header at h0
      omega
    · rw [hc]; exact h2
    · rw [hc]
      exact h1
  · intro h0 hb
    apply loop_body_done
    rw [hf]
    apply loop_fetch_body_nothing_read _ _ _ hb
    right
    show st.file.length ≤ st.read_pos + 16
    unfold remaining_after_header at h0
    omega

theorem loop_truncated_record_witness :
    env_ok.hdr_read_fails = false ∧ env_ok.lseek_fails = false
    ∧ (native_state (bare_header ++ [0xaa, 0xbb])).read_pos + 16
        ≤ (native_state (bare_header ++ [0xaa, 0xbb])).file.length
    ∧ remaining_after_header (native_state (bare_header ++ [0xaa, 0xbb])) = 2
    ∧ declared_caplen (native_state (bare_header ++ [0xaa, 0xbb])) = 10
    ∧ (loop_body sample_reply env_ok (native_state (bare_header ++ [0xaa, 0xbb]))).2 = .exit 1 :=
  ⟨rfl, rfl, by decide, by decide, by decide,
    (loop_truncated_record sample_reply env_ok (native_state (bare_header ++ [0xaa, 0xbb]))
      rfl rfl (by decide)).1 (by decide) (by decide) (by decide)⟩

/-- C4 is false as stated: a header declaring ten captured bytes with nothing
after it makes `loop` leave the loop (the `break` of line 192), not exit with
status 1; and a header declaring 2147483648 bytes with three bytes after it is
accepted as a complete record, because line 193 compares against
`(int)pph.caplen`, which is negative. -/
theorem truncation_taken_for_end_of_stream :
    declared_caplen (native_state bare_header) = 10
    ∧ remaining_after_header (native_state bare_header) = 0
    ∧ loop_body sample_reply env_ok (native_state bare_header)
        = ([Event.buf_fill 0], .done { native_state bare_header with read_pos := 40 })
    ∧ declared_caplen (native_state huge_record) = 2147483648
    ∧ remaining_after_header (native_state huge_record) = 3
    ∧ (loop_body sample_no_reply env_ok (native_state huge_record)).2
        = .next { native_state huge_record with iov_cnt := 1, read_pos := 43 } := by
  decide

/-- C5, evaluated on a native-order file holding a record of captured length 0
followed by an ordinary record: the pass of `loop` that reads the empty record
leaves the loop (line 192 takes the 0 returned by `read` for end of file), so
`loop` returns after one pass and `main` ends with status 0; the record at
offset 40, which a further pass would have answered, is never read. -/
theorem loop_leaves_on_empty_record :
    declared_caplen (native_state (zero_record ++ native_record)) = 0
    ∧ loop_body sample_reply env_ok (native_state (zero_record ++ native_record))
        = ([Event.buf_fill 0],
           .done { native_state (zero_record ++ native_record) with read_pos := 40 })
    ∧ loop sample_reply (fun _ => env_ok) 3 (native_state (zero_record ++ native_record))
        = some (.ret { native_state (zero_record ++ native_record) with read_pos := 40 })
    ∧ main sample_magic_little sample_magic_big sample_reply
          (setup_env_ok (native_preamble ++ (zero_record ++ native_record)))
          (fun _ => env_ok) 3 ["twig", "-i", "192.168.1.10_24"] = some 0
    ∧ (loop_body sample_reply env_ok
          { native_state (zero_record ++ native_record) with read_pos := 40 }).1
        = [Event.buf_fill 3, Event.buf_store 3, Event.print_record 1 2 3 3,
           Event.process_ethernet 1, Event.write_pcap] := by
  decide

theorem field_append_left (a r : List Byte) (off size : Nat) (h : off + size ≤ a.length) :
    field (a ++ r) off size = field a off size := by
  unfold field
  rw [List.drop_append_of_le_length (by omega), List.take_append_of_le_length]
  simp only [List.length_drop]
  omega

theorem remaining_after_header_eq (st : State) :
    remaining_after_header st = st.file.length - (st.read_pos + 16) := rfl

theorem jumbo_body_length : jumbo_body.length = 2097152 :=
  List.length_replicate 2097152 0

theorem jumbo_file_eq :
    jumbo_state.file = (native_preamble ++ jumbo_header) ++ jumbo_body :=
  (List.append_assoc native_preamble jumbo_header jumbo_body).symm

theorem jumbo_file_length : jumbo_state.file.length = 2097192 := by
  rw [jumbo_file_eq, List.length_append, jumbo_body_length]
  rfl

theorem jumbo_declared_caplen : declared_caplen jumbo_state = 2097152 := by
  have e := jumbo_file_eq
  have r : jumbo_state.reverseEndian = 0 := rfl
  have p : jumbo_state.read_pos = 24 := rfl
  unfold declared_caplen
  rw [e, r, p, field_append_left _ _ _ _ (by decide)]
  decide

theorem jumbo_fetch_events :
    ∃ e f, loop_fetch env_ok jumbo_state
      = ([Event.buf_fill 2097152, Event.buf_store 2097152, e], f) := by
  have hlen := jumbo_file_length
  have hp : jumbo_state.read_pos = 24 := rfl
  have hf := loop_fetch_header env_ok jumbo_state rfl rfl (by rw [hlen, hp]; decide)
  have hc := caplen_before_read jumbo_state
  rw [jumbo_declared_caplen] at hc
  have hb := loop_fetch_body_frame env_ok
    { jumbo_state with read_pos := jumbo_state.read_pos + 16 }
    (normalise_before_read jumbo_state.reverseEndian
      (pkthdr_of_bytes ((jumbo_state.file.drop jumbo_state.read_pos).take 16)))
    rfl rfl (by rw [hc]; decide) (by rw [hc]; decide)
    (by
      show jumbo_state.read_pos + 16 + _ ≤ jumbo_state.file.length
      rw [hc, hlen, hp])
  rw [hc] at hb
  rw [hf, hb]
  exact ⟨_, _, rfl⟩

/-- C8, evaluated on a native-order file whose record declares 2097152 captured
bytes, all present: `loop` reads the 2097152 bytes into `in_packet` and then
stores the terminator at index 2097152, which is the capacity of the buffer
and so not strictly below it.  No line of `loop` compares `caplen` with the
capacity. -/
theorem loop_stores_at_capacity :
    declared_caplen jumbo_state = in_packet_capacity
    ∧ remaining_after_header jumbo_state = in_packet_capacity
    ∧ Event.buf_fill in_packet_capacity ∈ (loop_fetch env_ok jumbo_state).1
    ∧ Event.buf_store in_packet_capacity ∈ (loop_fetch env_ok jumbo_state).1
    ∧ ¬ in_packet_capacity < in_packet_capacity := by
  obtain ⟨e, f, h⟩ := jumbo_fetch_events
  have hp : jumbo_state.read_pos = 24 := rfl
  unfold in_packet_capacity
  refine ⟨jumbo_declared_caplen, ?_, ?_, ?_, Nat.lt_irrefl _⟩
  · have hl := jumbo_file_length
    rw [remaining_after_header_eq]
    omega
  · rw [h]
    exact List.mem_cons_self _ _
  · rw [h]
    exact List.mem_cons_of_mem _ (List.mem_cons_self _ _)

theorem length_seg_bytes (s : iovec) : (seg_bytes s).length = s.iov_len := by
  simp [seg_bytes]

theorem seg_bytes_whole (b : List Byte) : seg_bytes ⟨b, b.length⟩ = b := by
  apply List.ext_getElem
  · simp [seg_bytes]
  · intro i h1 h2
    simp [seg_bytes, List.getD, h2]

theorem length_pkthdr_bytes (h : pcap_pkthdr) : (pkthdr_bytes h).length = 16 := by
  simp [pkthdr_bytes, length_le_encode]

theorem length_segments (iov : List iovec) (cnt : Nat) (h : cnt ≤ iov.length) :
    (((iov.take cnt).map seg_bytes).flatten).length
      = ∑ i ∈ Finset.range cnt, (iov.getD i ⟨[], 0⟩).iov_len := by
  induction cnt with
  | zero => simp
  | succ n ih =>
    have hn : n < iov.length := by omega
    have hg : iov.getD n ⟨[], 0⟩ = iov[n] := by
      simp [List.getD, List.getElem?_eq_getElem hn]
    rw [Finset.sum_range_succ, ← ih (by omega), List.take_succ, List.getElem?_eq_getElem hn,
      hg]
    simp only [Option.toList, List.map_append, List.flatten_append, List.length_append,
      List.map_cons, List.map_nil, List.flatten_cons, List.flatten_nil, List.append_nil,
      length_seg_bytes]

theorem take_set_zero (iov : List iovec) (x : iovec) (cnt : Nat) (h1 : 1 ≤ cnt)
    (h2 : cnt ≤ iov.length) :
    (iov.set 0 x).take cnt = x :: (iov.take cnt).drop 1 := by
  cases iov with
  | nil => simp at h2; omega
  | cons y ys =>
    cases cnt with
    | zero => omega
    | succ n => simp

/-- A flush that succeeds: with the clock read, `1 ≤ iov_cnt ≤` the length of the
segment array, and `writev` able to take the whole record, `write_pcap` appends
exactly the record header and segments `1 .. iov_cnt-1`, releases the slots and
resets the count. -/
theorem write_pcap_flushes (env : Env) (st : State) (tv : Nat × Nat) (k : Nat)
    (htv : env.gettimeofday = some tv) (hk : env.writev_room = some k)
    (h1 : 1 ≤ st.iov_cnt) (h2 : st.iov_cnt ≤ st.iov.length)
    (hroom : 16 + spec_payload_length st.iov st.iov_cnt ≤ k)
    (hrange : 16 + spec_payload_length st.iov st.iov_cnt < 9223372036854775808) :
    ∃ st', write_pcap env st = .ret st'
      ∧ st'.file = st.file ++ spec_reply_record tv st.iov st.iov_cnt
      ∧ st'.iov_cnt = 1 := by
  obtain ⟨tv_sec, tv_usec⟩ := tv
  have hp := payload_total_eq st.iov st.iov_cnt h1
  have hcap : (payload_total st.iov st.iov_cnt % 4294967296).toNat
      = spec_payload_length st.iov st.iov_cnt % 4294967296 := by
    rw [hp, wrap64_emod]
    unfold spec_payload_length
    omega
  have htot : wrap64 (payload_total st.iov st.iov_cnt + 16)
      = ((16 + spec_payload_length st.iov st.iov_cnt : Nat) : Int) := by
    rw [hp, wrap64_add_left, wrap64_of_range]
    · unfold spec_payload_length
      rw [Nat.cast_add, add_comm]; rfl
    · unfold spec_payload_length at hrange
      omega
    · unfold spec_payload_length at hrange
      omega
  have hlen16 : ∀ h : pcap_pkthdr, seg_bytes ⟨pkthdr_bytes h, 16⟩ = pkthdr_bytes h := by
    intro h
    have := seg_bytes_whole (pkthdr_bytes h)
    rw [length_pkthdr_bytes] at this
    exact this
  have hsum := sum_segments_with_header st.iov st.iov_cnt
  have hlenset : ∀ x : iovec, st.iov_cnt ≤ (st.iov.set 0 x).length := by
    intro x; simpa using h2
  have hdata_len : ∀ x : iovec, x.iov_len = 16 →
      (((st.iov.set 0 x).take st.iov_cnt).map seg_bytes).flatten.length
        = 16 + spec_payload_length st.iov st.iov_cnt := by
    intro x hx
    rw [length_segments _ _ (hlenset x), hsum x h1 h2, hx]
    rfl
  have htake : ∀ x : iovec, x.iov_len = 16 →
      ((((st.iov.set 0 x).take st.iov_cnt).map seg_bytes).flatten).take k
        = (((st.iov.set 0 x).take st.iov_cnt).map seg_bytes).flatten := by
    intro x hx
    apply List.take_of_length_le
    rw [hdata_len x hx]
    exact hroom
  simp only [write_pcap, write_pcap_locals, htv, hk, writev, hcap, htot]
  rw [htake _ rfl, hdata_len _ rfl]
  simp only [ne_eq, not_true_eq_false, if_false]
  refine ⟨_, rfl, ?_, rfl⟩
  simp only [spec_reply_record, take_set_zero _ _ _ h1 h2, List.map_cons, List.flatten_cons,
    hlen16]


theorem loop_fetch_frame_inv (env : Env) (st : State) (ev : List Event) (in_packet : List Byte)
    (pph : pcap_pkthdr) (ret : Int) (st1 : State)
    (h : loop_fetch env st = (ev, .frame in_packet pph ret st1)) :
    st1.pfh = st.pfh ∧ st1.iov = st.iov ∧ st1.file = st.file
      ∧ (∀ n, Event.process_ethernet n ∉ ev) ∧ Event.write_pcap ∉ ev := by
  unfold loop_fetch loop_fetch_body at h
  simp only [] at h
  split_ifs at h <;> simp only [Prod.mk.injEq, Fetched.frame.injEq, reduceCtorEq, and_false]
    at h
  obtain ⟨hev, _, _, _, hst⟩ := h
  subst hev hst
  simp

/-- C9: in a pass of `loop` that has read a record (header and body),
`write_pcap` is called exactly when the link type in `pfh` is 1 and
`process_ethernet` returns a positive value.  With another link type
`process_ethernet` is not called, nothing is flushed and the pass ends with
`iov_cnt = 1`; `process_ethernet` is only ever called with a count of 1; when
it returns 0 the pass goes on to the next record without a flush; when it
returns a negative value the loop is left without a flush; when it returns a
positive value `write_pcap` returns and the pass goes on to the next record.
In every case but the last the capture file is left as it was.  In the last
case, when the clock can be read, `process_ethernet` leaves a count between 1
and the length of the segment array, and `writev` takes the whole record (its
size being below `2^63`), the file grows by exactly one record: a header with
the clock and the payload length, then segments `1 .. iov_cnt-1`; and the
count is back at 1. -/
theorem loop_dispatches_on_link_type
    (process_ethernet : List Byte → Nat → List iovec → Dispatched) (env : Env) (st : State)
    (ev : List Event) (in_packet : List Byte) (pph : pcap_pkthdr) (ret : Int) (st1 : State)
    (hf : loop_fetch env st = (ev, .frame in_packet pph ret st1)) :
    (Event.write_pcap ∈ (loop_body process_ethernet env st).1
        ↔ st.pfh.linktype = 1 ∧ 0 < (process_ethernet in_packet 1 st1.iov).ret)
    ∧ (st.pfh.linktype ≠ 1 →
        (∀ n, Event.process_ethernet n ∉ (loop_body process_ethernet env st).1)
        ∧ (loop_body process_ethernet env st).2 = .next { st1 with iov_cnt := 1 })
    ∧ (st.pfh.linktype = 1 →
        Event.process_ethernet 1 ∈ (loop_body process_ethernet env st).1
        ∧ ∀ n, Event.process_ethernet n ∈ (loop_body process_ethernet env st).1 → n = 1)
    ∧ (st.pfh.linktype = 1 → (process_ethernet in_packet 1 st1.iov).ret = 0 →
        (loop_body process_ethernet env st).2
          = .next { st1 with iov := (process_ethernet in_packet 1 st1.iov).iov
                             iov_cnt := (process_ethernet in_packet 1 st1.iov).iov_cnt })
    ∧ (st.pfh.linktype = 1 → (process_ethernet in_packet 1 st1.iov).ret < 0 →
        (loop_body process_ethernet env st).2
          = .done { st1 with iov := (process_ethernet in_packet 1 st1.iov).iov
                             iov_cnt := (process_ethernet in_packet 1 st1.iov).iov_cnt })
    ∧ (st.pfh.linktype = 1 → 0 < (process_ethernet in_packet 1 st1.iov).ret →
        ∃ st', write_pcap env
              { st1 with iov := (process_ethernet in_packet 1 st1.iov).iov
                         iov_cnt := (process_ethernet in_packet 1 st1.iov).iov_cnt } = .ret st'
          ∧ (loop_body process_ethernet env st).2 = .next st')
    ∧ (¬ (st.pfh.linktype = 1 ∧ 0 < (process_ethernet in_packet 1 st1.iov).ret) →
        ∃ st', ((loop_body process_ethernet env st).2 = .next st'
                ∨ (loop_body process_ethernet env st).2 = .done st')
          ∧ st'.file = st.file)
    ∧ (st.pfh.linktype = 1 → 0 < (process_ethernet in_packet 1 st1.iov).ret →
        ∀ (tv : Nat × Nat) (k : Nat), env.gettimeofday = some tv → env.writev_room = some k →
        1 ≤ (process_ethernet in_packet 1 st1.iov).iov_cnt →
        (process_ethernet in_packet 1 st1.iov).iov_cnt
          ≤ (process_ethernet in_packet 1 st1.iov).iov.length →
        16 + spec_payload_length (process_ethernet in_packet 1 st1.iov).iov
              (process_ethernet in_packet 1 st1.iov).iov_cnt ≤ k →
        16 + spec_payload_length (process_ethernet in_packet 1 st1.iov).iov
              (process_ethernet in_packet 1 st1.iov).iov_cnt < 9223372036854775808 →
        ∃ st', (loop_body process_ethernet env st).2 = .next st'
          ∧ st'.file
              = st.file ++ spec_reply_record tv (process_ethernet in_packet 1 st1.iov).iov
                  (process_ethernet in_packet 1 st1.iov).iov_cnt
          ∧ st'.iov_cnt = 1) := by
  obtain ⟨hpfh, _, hfile, hpe, hwp⟩ := loop_fetch_frame_inv env st ev in_packet pph ret st1 hf
  have hb : loop_body process_ethernet env st
      = (ev ++ (loop_dispatch process_ethernet env in_packet st1).1,
         (loop_dispatch process_ethernet env in_packet st1).2) := by
    unfold loop_body
    rw [hf]
  rw [hb, ← hpfh, ← hfile]
  by_cases hlt : st1.pfh.linktype = 1
  · rcases lt_trichotomy (process_ethernet in_packet 1 st1.iov).ret 0 with hneg | hzero | hpos
    · have h0 : ¬ 0 < (process_ethernet in_packet 1 st1.iov).ret := by omega
      have h1 : ¬ (process_ethernet in_packet 1 st1.iov).ret = 0 := by omega
      simp [loop_dispatch, hlt, hneg, h0, h1, hpe, hwp]
    · have h0 : ¬ 0 < (process_ethernet in_packet 1 st1.iov).ret := by omega
      have h1 : ¬ (process_ethernet in_packet 1 st1.iov).ret < 0 := by omega
      simp [loop_dispatch, hlt, hzero, hpe, hwp]
    · have h0 : ¬ (process_ethernet in_packet 1 st1.iov).ret = 0 := by omega
      have h1 : ¬ (process_ethernet in_packet 1 st1.iov).ret < 0 := by omega
      obtain ⟨st', hst'⟩ : ∃ st', write_pcap env
          { st1 with iov := (process_ethernet in_packet 1 st1.iov).iov
                     iov_cnt := (process_ethernet in_packet 1 st1.iov).iov_cnt } = .ret st' := by
        cases hw : write_pcap env
          { st1 with iov := (process_ethernet in_packet 1 st1.iov).iov
                     iov_cnt := (process_ethernet in_packet 1 st1.iov).iov_cnt } with
        | exit c => exact absurd hw (write_pcap_ne_exit _ _ _)
        | ret s => exact ⟨s, rfl⟩
      simp [loop_dispatch, hlt, hpos, h0, h1, hpe, hwp, hst']
      intro tv_sec tv_usec k htv hk hc1 hc2 hroom hrange
      obtain ⟨st2, hw2, hf2, hc2⟩ := write_pcap_flushes env
        { st1 with iov := (process_ethernet in_packet 1 st1.iov).iov
                   iov_cnt := (process_ethernet in_packet 1 st1.iov).iov_cnt }
        (tv_sec, tv_usec) k htv hk hc1 hc2 hroom hrange
      rw [hst'] at hw2
      injection hw2 with hw2
      subst hw2
      exact ⟨hf2, hc2⟩
  · simp [loop_dispatch, hlt, hpe, hwp]

theorem loop_dispatches_on_link_type_witness :
    loop_fetch env_ok (native_state native_record)
        = ([Event.buf_fill 3, Event.buf_store 3, Event.print_record 1 2 3 3],
           .frame [0xaa, 0xbb, 0xcc, 0] ⟨1, 2, 3, 3⟩ 3
             { native_state native_record with read_pos := 43 })
    ∧ (Event.write_pcap ∈ (loop_body sample_reply env_ok (native_state native_record)).1
        ↔ (native_state native_record).pfh.linktype = 1
          ∧ 0 < (sample_reply [0xaa, 0xbb, 0xcc, 0] 1
                  ({ native_state native_record with read_pos := 43 } : State).iov).ret)
    ∧ spec_reply_record (1, 2) iov_reply 2 = flushed_record
    ∧ ∃ st', (loop_body sample_reply env_ok (native_state native_record)).2 = .next st'
        ∧ st'.file = native_preamble ++ native_record ++ flushed_record
        ∧ st'.iov_cnt = 1 := by
  have hrec : spec_reply_record (1, 2) iov_reply 2 = flushed_record := by decide
  have hlen : spec_payload_length iov_reply 2 = 3 := by decide
  have h := loop_dispatches_on_link_type sample_reply env_ok (native_state native_record)
    [Event.buf_fill 3, Event.buf_store 3, Event.print_record 1 2 3 3]
    [0xaa, 0xbb, 0xcc, 0] ⟨1, 2, 3, 3⟩ 3 { native_state native_record with read_pos := 43 }
    (by decide)
  obtain ⟨st', hs, hfile, hcnt⟩ :=
    h.2.2.2.2.2.2.2 (by decide) (by decide) (1, 2) 1000000 rfl rfl (by decide) (by decide)
      (by
        show 16 + spec_payload_length iov_reply 2 ≤ 1000000
        rw [hlen]; decide)
      (by
        show 16 + spec_payload_length iov_reply 2 < 9223372036854775808
        rw [hlen]; decide)
  refine ⟨by decide, h.1, hrec, st', hs, ?_, hcnt⟩
  rw [hfile]
  show (native_preamble ++ native_record) ++ spec_reply_record (1, 2) iov_reply 2 = _
  rw [hrec]

/-! ## Argument handling of `main` -/

theorem parse_args_ne_exit_99_aux (n : Nat) :
    ∀ (args : List String) (debug : Nat) (filename : Option String),
      args.length ≤ n → parse_args args debug filename ≠ .exit 99 := by
  induction n with
  | zero =>
    intro args debug filename h
    have h0 : args = [] := List.length_eq_zero.mp (Nat.le_zero.mp h)
    subst h0
    simp [parse_args]
  | succ n ih =>
    intro args debug filename h
    match args with
    | [] => simp [parse_args]
    | arg :: rest =>
      have hr : rest.length ≤ n := by simpa using h
      unfold parse_args
      split_ifs
      · exact ih rest _ _ hr
      · match rest with
        | [] => simp
        | value :: rest2 =>
          have hr2 : rest2.length ≤ n := by
            simp only [List.length_cons] at hr
            omega
          exact ih rest2 _ _ hr2
      · simp [print_help, Outcome.bind]
      · simp [print_help, Outcome.bind]

theorem parse_args_ne_exit_99 (args : List String) (debug : Nat) (filename : Option String) :
    parse_args args debug filename ≠ .exit 99 :=
  parse_args_ne_exit_99_aux args.length args debug filename (Nat.le_refl _)

/-- C10, evaluated: with no argument, with only `-d`, with `-i` as the last
argument and with an unknown argument, `main` exits with status 0, because
`print_help` itself calls `exit(0)` before the `exit(99)` that follows it; that
happens before `setup`, whatever the file system holds; and no argument vector
at all leads to status 99. -/
theorem main_args_never_exits_99 :
    main_args ["twig"] = .exit 0
    ∧ (∀ (magic_little magic_big : Nat)
        (process_ethernet : List Byte → Nat → List iovec → Dispatched) (senv : SetupEnv)
        (envs : Nat → Env) (fuel : Nat),
        main magic_little magic_big process_ethernet senv envs fuel ["twig"] = some 0)
    ∧ main_args ["twig", "-d"] = .exit 0
    ∧ main_args ["twig", "-i"] = .exit 0
    ∧ main_args ["twig", "-x"] = .exit 0
    ∧ main_args ["twig", "-i", "192.168.1.10_24", "-x"] = .exit 0
    ∧ ∀ argv : List String, main_args argv ≠ .exit 99 := by
  refine ⟨by decide, fun _ _ _ _ _ _ => rfl, by decide, by decide, by decide, by decide, ?_⟩
  intro argv
  unfold main_args
  by_cases h : argv.length < 2
  · simp [h, print_help, Outcome.bind]
  · simp only [h, if_false, Outcome.bind]
    have hp := parse_args_ne_exit_99 (argv.drop 1) 0 none
    cases hr : parse_args (argv.drop 1) 0 none with
    | exit c =>
      simp only
      intro hc
      injection hc with hc
      exact hp (by rw [hr, hc])
    | ret r =>
      cases hf : r.2 with
      | none => simp [hf, print_help]
      | some f => simp [hf]

end Twig
